import Mathlib

/-!
Shallow embedding of the PBR-AdGuard-Home synchronization service
(`pbr_sync.py`) and verification of its specification claims.

The Python program is single-threaded; all of its pure logic (config-line
parsing, domain validation, firewall-dump parsing, the per-record
synchronization step) is translated here into executable Lean functions over
`List Char` / `String` / `Nat`.  External collaborators (the `uci` and `nft`
subprocesses, the AdGuard HTTP API, the system clock, and the stdlib
`datetime.fromisoformat` parser) are modelled as explicit parameters:
an `Except`-valued fetch result, an outcome value per firewall command,
clock readings, and an abstract ISO-8601 parser.
-/

set_option autoImplicit false

namespace PBRSync

/-! ### Character and string utilities (modelling Python `str` operations) -/

/-- Python `\w` word character: `[a-zA-Z0-9_]` (ASCII, which is all the source ever feeds it). -/
def isWordChar (c : Char) : Bool := c.isAlpha || c.isDigit || c == '_'

/-- Python `[a-zA-Z0-9]`. -/
def isAlnumChar (c : Char) : Bool := c.isAlpha || c.isDigit

/-- `pre` is a prefix of `l`. -/
def isPrefixL : List Char → List Char → Bool
  | [], _ => true
  | _ :: _, [] => false
  | a :: as, b :: bs => a == b && isPrefixL as bs

/-- The suffix of `l` strictly after the first occurrence of `sep`,
`none` when `sep` does not occur.  (Helper for Python `in` and `split`.) -/
def dropAfterFirst (sep : List Char) : List Char → Option (List Char)
  | [] => none
  | c :: rest =>
    if isPrefixL sep (c :: rest) then some ((c :: rest).drop sep.length)
    else dropAfterFirst sep rest

/-- Python `sep in l` (for non-empty `sep`). -/
def containsSub (sep : List Char) (l : List Char) : Bool := (dropAfterFirst sep l).isSome

/-- The chars of `l` before the first occurrence of `sep` (all of `l` when absent).
This is Python `l.split(sep)[0]`. -/
def beforeFirst (sep : List Char) : List Char → List Char
  | [] => []
  | c :: rest =>
    if isPrefixL sep (c :: rest) then [] else c :: beforeFirst sep rest

/-- Python `l.split(sep)[1]`: the chars between the first and second occurrence
of `sep` (to the end when `sep` occurs once).  Only used where the source has
already checked `sep in l`. -/
def between1 (sep : List Char) (l : List Char) : List Char :=
  beforeFirst sep ((dropAfterFirst sep l).getD [])

/-- Python `s.split(c)` for a single-character separator. -/
def splitChar (sep : Char) : List Char → List (List Char)
  | [] => [[]]
  | c :: rest =>
    let r := splitChar sep rest
    if c == sep then [] :: r
    else
      match r with
      | [] => [[c]]
      | g :: gs => (c :: g) :: gs

/-- Python `s.strip()`: drop whitespace from both ends. -/
def pyStrip (l : List Char) : List Char :=
  ((l.dropWhile Char.isWhitespace).reverse.dropWhile Char.isWhitespace).reverse

/-- The quote characters (single and double) stripped by the source via `.strip`. -/
def isQuoteChar (c : Char) : Bool := c == Char.ofNat 39 || c == Char.ofNat 34

/-- Python `.strip` with the two quote characters: drop them from both ends. -/
def stripQuotes (l : List Char) : List Char :=
  ((l.dropWhile isQuoteChar).reverse.dropWhile isQuoteChar).reverse

/-- Python `s.split()` with no argument: split on whitespace runs, dropping empties. -/
def splitWSAux : List Char → List Char → List (List Char)
  | [], acc => if acc.isEmpty then [] else [acc.reverse]
  | c :: rest, acc =>
    if c.isWhitespace then
      if acc.isEmpty then splitWSAux rest [] else acc.reverse :: splitWSAux rest []
    else splitWSAux rest (c :: acc)

def splitWS (l : List Char) : List (List Char) := splitWSAux l []

/-- Python `s.lower()` (ASCII). -/
def lowerL (l : List Char) : List Char := l.map Char.toLower

def lowerS (s : String) : String := String.mk (lowerL s.data)

/-! ### The domain-validity predicate `PBRConfig.is_domain`

Source regex: `^[a-zA-Z0-9]([a-zA-Z0-9\-]{0,61}[a-zA-Z0-9])?(\.[a-zA-Z0-9]([a-zA-Z0-9\-]{0,61}[a-zA-Z0-9])?)*$`
matched with `re.match`, conjoined with `'.' in text`. -/

/-- One dot-separated label of the regex: 1–63 chars, alphanumeric or hyphen,
first and last alphanumeric. -/
def labelOk (l : List Char) : Bool :=
  match l, l.getLast? with
  | c :: _, some d =>
    l.length ≤ 63 && isAlnumChar c && isAlnumChar d &&
      l.all (fun x => isAlnumChar x || x == '-')
  | _, _ => false

/-- The regex body matches the whole char sequence. -/
def domainFullMatch (l : List Char) : Bool := (splitChar '.' l).all labelOk

/-- Python `re.match` with a `$`-anchored pattern also matches when the pattern
consumes everything up to a single trailing newline. -/
def pyDollarMatch (l : List Char) : Bool :=
  domainFullMatch l ||
    (match l.getLast? with
     | some c => c == '\n' && domainFullMatch l.dropLast
     | none => false)

/-- `PBRConfig.is_domain`. -/
def is_domain (text : String) : Bool :=
  pyDollarMatch text.data && containsSub ['.'] text.data

/-! ### Association lists (modelling Python `dict` with insertion order) -/

/-- First value bound to `k`. -/
def alistLookup {α : Type} (l : List (String × α)) (k : String) : Option α :=
  match l with
  | [] => none
  | (k2, v) :: rest => if k2 = k then some v else alistLookup rest k

/-- Python `d[k] = v`: replace in place when the key exists (dicts keep the
original position), append otherwise.  Keys are unique by construction, so
replacing the first occurrence is dict assignment. -/
def alistUpdate {α : Type} (l : List (String × α)) (k : String) (v : α) :
    List (String × α) :=
  match l with
  | [] => [(k, v)]
  | (k2, w) :: rest => if k2 = k then (k, v) :: rest else (k2, w) :: alistUpdate rest k v

/-- Python `d[k] = f (d[k])` on a key known to be present (no-op when absent). -/
def alistModify {α : Type} (l : List (String × α)) (k : String) (f : α → α) :
    List (String × α) :=
  match l with
  | [] => []
  | (k2, w) :: rest => if k2 = k then (k, f w) :: rest else (k2, w) :: alistModify rest k f

/-! ### `PBRConfig`: parsing `uci show pbr` output -/

/-- One routing policy as stored in `PBRConfig.policies`. -/
structure Policy where
  name : String
  interface : String
  domains : List String
  enabled : Bool
deriving DecidableEq

/-- The record created for each `=policy` header line (`load_config`, lines
58–63 of the source): note `enabled` defaults to `true` («По умолчанию
политика активна»). -/
def defaultPolicy : Policy := ⟨"", "", [], true⟩

/-- `re.search` with pattern `pbr\.@policy\[(\d+)\]`, returning group 1. -/
def searchPolicyId : List Char → Option (List Char)
  | [] => none
  | c :: rest =>
    if isPrefixL "pbr.@policy[".data (c :: rest) then
      let after := (c :: rest).drop 12
      let ds := after.takeWhile Char.isDigit
      if ds.isEmpty then searchPolicyId rest
      else
        match after.drop ds.length with
        | ']' :: _ => some ds
        | _ => searchPolicyId rest
    else searchPolicyId rest

/-- Parser state of the `load_config` line loop. -/
structure ConfigSt where
  policies : List (String × Policy)
  current : Option String
deriving DecidableEq

/-- One iteration of the `load_config` line loop (source lines 52–82). -/
def pbrLineStep (st : ConfigSt) (line : List Char) : ConfigSt :=
  if containsSub "=policy".data line then
    match searchPolicyId line with
    | some pid =>
      ⟨alistUpdate st.policies (String.mk pid) defaultPolicy, some (String.mk pid)⟩
    | none => st
  else
    match st.current with
    | none => st
    | some cp =>
      if containsSub "name=".data line then
        let v := String.mk (stripQuotes (between1 "name=".data line))
        ⟨alistModify st.policies cp (fun p => { p with name := v }), st.current⟩
      else if containsSub "interface=".data line then
        let v := String.mk (stripQuotes (between1 "interface=".data line))
        ⟨alistModify st.policies cp (fun p => { p with interface := v }), st.current⟩
      else if containsSub "dest_addr=".data line then
        let destAddr := stripQuotes (between1 "dest_addr=".data line)
        let doms := ((splitWS destAddr).filter (fun d => is_domain (String.mk d))).map
          (fun d => String.mk (pyStrip d))
        ⟨alistModify st.policies cp (fun p => { p with domains := doms }), st.current⟩
      else if containsSub "enabled=".data line then
        let v := stripQuotes (between1 "enabled=".data line)
        ⟨alistModify st.policies cp (fun p => { p with enabled := v == "1".data }), st.current⟩
      else st

/-- The parse phase of `load_config`: every step above is total, so once the
`uci` fetch has succeeded no exception can interrupt the rebuild. -/
def parse_pbr_lines (lines : List (List Char)) : List (String × Policy) :=
  (lines.foldl pbrLineStep ⟨[], none⟩).policies

/-- `PBRConfig.load_config`.  The `uci show pbr` subprocess is modelled by its
outcome `fetch`; the source resets `self.policies` only *after* that call
returns, and the parse loop itself is total, so the single error path (the
`except` branch) keeps the previous policies. -/
def load_config (prev : List (String × Policy)) (fetch : Except String String) :
    List (String × Policy) :=
  match fetch with
  | Except.error _ => prev
  | Except.ok out => parse_pbr_lines (splitChar '\n' (pyStrip out.data))

/-- `PBRConfig.get_all_domains`: domain → interface over enabled policies. -/
def get_all_domains (policies : List (String × Policy)) : List (String × String) :=
  policies.foldl
    (fun m pp =>
      if pp.2.enabled then
        pp.2.domains.foldl (fun m2 d => alistUpdate m2 d pp.2.interface) m
      else m)
    []

/-- `PBRConfig.get_name_to_interface_map`: lower-cased name → interface over
enabled policies with a non-empty name. -/
def get_name_to_interface_map (policies : List (String × Policy)) :
    List (String × String) :=
  policies.foldl
    (fun m pp =>
      if pp.2.enabled && !(pp.2.name == "") then
        alistUpdate m (lowerS pp.2.name) pp.2.interface
      else m)
    []

/-! ### `NFTablesManager`: firewall-set discovery and insertion -/

/-- Cached data per nft set.  An entry created by `add_ip_to_set` has no
`interface` key in the source; since every access goes through
`.get` on that key, a missing key is observationally `None`, modelled here
as `none`. -/
structure NftSetInfo where
  interface : Option String
  elements : List String
deriving DecidableEq

abbrev NftSets := List (String × NftSetInfo)

/-- Python `set.add` on a membership-cached list. -/
def setInsert (l : List String) (x : String) : List String :=
  if l.contains x then l else l ++ [x]

/-- Python `set.update`. -/
def setUnion (l : List String) (xs : List String) : List String := xs.foldl setInsert l

/-- `re.search` with pattern `set (pbr_\w+)`, returning group 1. -/
def searchSetName : List Char → Option (List Char)
  | [] => none
  | c :: rest =>
    if isPrefixL "set pbr_".data (c :: rest) then
      let ws := ((c :: rest).drop 8).takeWhile isWordChar
      if ws.isEmpty then searchSetName rest
      else some ("pbr_".data ++ ws)
    else searchSetName rest

/-- `re.search` with pattern `comment "(\w+)"`, returning group 1. -/
def searchComment : List Char → Option (List Char)
  | [] => none
  | c :: rest =>
    if isPrefixL "comment \"".data (c :: rest) then
      let after := (c :: rest).drop 9
      let ws := after.takeWhile isWordChar
      if ws.isEmpty then searchComment rest
      else
        match after.drop ws.length with
        | '"' :: _ => some ws
        | _ => searchComment rest
    else searchComment rest

/-- Maximal leading digit run. -/
def digitRun (l : List Char) : List Char := l.takeWhile Char.isDigit

/-- Attempt to match `\d{1,3}\.\d{1,3}\.\d{1,3}\.\d{1,3}\b` at the head of `l`
(the `\b` before the head is checked by the caller); returns the matched
characters and the remainder. -/
def matchIPAt (l : List Char) : Option (List Char × List Char) :=
  let d1 := digitRun l
  if d1.isEmpty || d1.length > 3 then none
  else
    match l.drop d1.length with
    | '.' :: r1 =>
      let d2 := digitRun r1
      if d2.isEmpty || d2.length > 3 then none
      else
        match r1.drop d2.length with
        | '.' :: r2 =>
          let d3 := digitRun r2
          if d3.isEmpty || d3.length > 3 then none
          else
            match r2.drop d3.length with
            | '.' :: r3 =>
              let d4 := digitRun r3
              if d4.isEmpty || d4.length > 3 then none
              else
                let rest := r3.drop d4.length
                let boundary :=
                  match rest with
                  | [] => true
                  | x :: _ => !isWordChar x
                if boundary then
                  some (d1 ++ '.' :: d2 ++ '.' :: d3 ++ '.' :: d4, rest)
                else none
            | _ => none
        | _ => none
    | _ => none

/-- `re.findall` with pattern `\b(\d{1,3}\.\d{1,3}\.\d{1,3}\.\d{1,3})\b`: scan left to
right, non-overlapping.  `prevW` records whether the previous character was a
word character (for the leading `\b`); the fuel equals the initial length and
never runs out because every step consumes at least one character. -/
def findIPsAux : Nat → Bool → List Char → List (List Char)
  | 0, _, _ => []
  | _ + 1, _, [] => []
  | fuel + 1, prevW, c :: rest =>
    if !prevW && c.isDigit then
      match matchIPAt (c :: rest) with
      | some (ip, rest2) => ip :: findIPsAux fuel true rest2
      | none => findIPsAux fuel (isWordChar c) rest
    else findIPsAux fuel (isWordChar c) rest

def findIPs (l : List Char) : List (List Char) := findIPsAux l.length false l

/-- Parser state of the `discover_sets` line loop. -/
structure DiscSt where
  sets : NftSets
  current : Option String
deriving DecidableEq

/-- One iteration of the `discover_sets` line loop (source lines 184–218).
Note the header branch *overwrites* any existing cache entry for the set with
a fresh record with `interface = None` and an empty element set. -/
def discoverLineStep (nameMap : List (String × String)) (st : DiscSt)
    (rawLine : List Char) : DiscSt :=
  let line := pyStrip rawLine
  if containsSub "set pbr_".data line && containsSub ['\x7b'] line then
    match searchSetName line with
    | some nm => ⟨alistUpdate st.sets (String.mk nm) ⟨none, []⟩, some (String.mk nm)⟩
    | none => st
  else
    match st.current with
    | none => st
    | some cs =>
      if containsSub "comment".data line then
        match searchComment line with
        | some cm =>
          let iface := (alistLookup nameMap (String.mk (lowerL cm))).getD (String.mk cm)
          ⟨alistModify st.sets cs (fun i => { i with interface := some iface }), st.current⟩
        | none => st
      else if containsSub "elements = \x7b".data line then
        let txt := between1 "elements = \x7b".data line
        let txt2 := if containsSub ['\x7d'] txt then beforeFirst ['\x7d'] txt else txt
        let ips := (findIPs txt2).map String.mk
        ⟨alistModify st.sets cs (fun i => { i with elements := setUnion i.elements ips }), none⟩
      else st

/-- `NFTablesManager.discover_sets`.  The `nft list table inet fw4`
subprocess is modelled by its outcome `fetch`: on failure the `except` branch
leaves `nft_sets` untouched; on success the line loop runs over the raw
(unstripped) split of stdout.  `name_to_interface` is computed from the
current policies exactly as the source does at the top of the call. -/
def discover_sets (policies : List (String × Policy)) (pre : NftSets)
    (fetch : Except String String) : NftSets :=
  match fetch with
  | Except.error _ => pre
  | Except.ok out =>
    let nameMap := get_name_to_interface_map policies
    ((splitChar '\n' out.data).foldl (discoverLineStep nameMap) ⟨pre, none⟩).sets

/-- Outcome of one `nft add element` subprocess invocation. -/
inductive NftOutcome where
  | ret (code : Nat)
  | raise
deriving DecidableEq

/-- `NFTablesManager.add_ip_to_set`.  Returns
`(return value, new cache, whether an nft command was issued)`. -/
def add_ip_to_set (sets : NftSets) (set_name ip : String) (outcome : NftOutcome) :
    Bool × NftSets × Bool :=
  let cached :=
    match alistLookup sets set_name with
    | some info => info.elements.contains ip
    | none => false
  if cached then (true, sets, false)
  else
    match outcome with
    | NftOutcome.ret 0 =>
      let sets2 :=
        if (alistLookup sets set_name).isSome then
          alistModify sets set_name (fun i => { i with elements := setInsert i.elements ip })
        else sets ++ [(set_name, ⟨none, [ip]⟩)]
      (true, sets2, true)
    | NftOutcome.ret _ => (false, sets, true)
    | NftOutcome.raise => (false, sets, true)

/-- `NFTablesManager.find_set_for_interface`: first set whose cached
interface equals `iface`. -/
def find_set_for_interface (sets : NftSets) (iface : String) : Option String :=
  match sets with
  | [] => none
  | (nm, info) :: rest =>
    if info.interface == some iface then some nm else find_set_for_interface rest iface

/-! ### `PBRSyncService`: timestamp parsing and the sync pass -/

/-- A Python `datetime` for our purposes: an instant (`val`, seconds or any
monotone unit) and whether it carries timezone info (`tz`). -/
structure PyDatetime where
  val : Nat
  tz : Bool
deriving DecidableEq

/-- The `Z`-suffix normalization at the top of `parse_query_time`. -/
def normalizeZ (s : String) : String :=
  match s.data.getLast? with
  | some c => if c == 'Z' then String.mk (s.data.dropLast ++ "+00:00".data) else s
  | none => s

/-- `PBRSyncService.parse_query_time`.  The stdlib `datetime.fromisoformat`
is an external collaborator, modelled by the abstract parser `fromIso`
(`none` = `ValueError`); `now` is the clock reading the `except` branch
would take.  A naive parse result is stamped with UTC. -/
def parse_query_time (fromIso : String → Option PyDatetime) (now : Nat)
    (time_str : String) : PyDatetime :=
  match fromIso (normalizeZ time_str) with
  | some dt => if dt.tz then dt else ⟨dt.val, true⟩
  | none => ⟨now, true⟩

/-- One answer of a resolution record (an entry of the answer field). -/
structure Answer where
  rtype : String
  value : String
deriving DecidableEq

/-- One resolution record from the query log.  Fields absent in the JSON are
taken as `""` (the `.get` defaults used by the source). -/
structure Query where
  time : String
  name : String
  client : String
  answer : List Answer
deriving DecidableEq

/-- The event identity `f"{time}_{name}_{client}"`. -/
def queryId (q : Query) : String := q.time ++ "_" ++ q.name ++ "_" ++ q.client

/-- Mutable state threaded through one sync pass, instrumented with the list
of `add_ip_to_set` calls (`insertLog`) and of actually-issued nft commands
(`mutLog`). -/
structure SyncAcc where
  processed : List String
  nftSets : NftSets
  added : Nat
  insertLog : List (String × String)
  mutLog : List (String × String)
deriving DecidableEq

/-- The body of the `for ans in answer` loop (source lines 336–349). -/
def processAnswer (oracle : String → String → NftOutcome) (iface : String)
    (acc : SyncAcc) (ans : Answer) : SyncAcc :=
  if ans.rtype == "A" && !(ans.value == "") then
    let ip := ans.value
    if ip == "0.0.0.0" || isPrefixL "127.".data ip.data then acc
    else
      match find_set_for_interface acc.nftSets iface with
      | none => acc
      | some nft_set =>
        let res := add_ip_to_set acc.nftSets nft_set ip (oracle nft_set ip)
        { acc with
          nftSets := res.2.1
          insertLog := acc.insertLog ++ [(nft_set, ip)]
          mutLog := acc.mutLog ++ (if res.2.2 then [(nft_set, ip)] else [])
          added := acc.added + (if res.1 then 1 else 0) }
  else acc

/-- The body of the `for query in queries` loop (source lines 321–349):
freshness check against the pass-constant `last_check`, then the
dedup check, then mark processed, then process answers. -/
def processQuery (fromIso : String → Option PyDatetime) (nowParse lastCheck : Nat)
    (oracle : String → String → NftOutcome) (iface : String)
    (acc : SyncAcc) (q : Query) : SyncAcc :=
  let qt := parse_query_time fromIso nowParse q.time
  if qt.val ≤ lastCheck then acc
  else if acc.processed.contains (queryId q) then acc
  else
    let acc1 : SyncAcc := { acc with processed := setInsert acc.processed (queryId q) }
    q.answer.foldl (processAnswer oracle iface) acc1

/-- `PBRSyncService` sync state (`processed_queries`, `last_check`). -/
structure SyncState where
  processed_queries : List String
  last_check : Nat
deriving DecidableEq

/-- The clock readings surrounding one sync pass: `startT` is the instant the
pass begins (never read by the code), `nowParse` the reading used for
`parse_query_time` fallbacks, `endT` the reading taken at source line 355
after all domains are processed. -/
structure ClockEnv where
  startT : Nat
  nowParse : Nat
  endT : Nat
deriving DecidableEq

structure SyncResult where
  state : SyncState
  nftSets : NftSets
  added : Nat
  insertLog : List (String × String)
  mutLog : List (String × String)
deriving DecidableEq

/-- `PBRSyncService.sync_domains`.  `domainMap` pairs each watched domain with
its interface and the resolution records fetched for it (a failed fetch is the
empty list, as `get_query_log` returns `[]` on error).  After the per-domain
loops, `last_check` is assigned the *current* clock reading `env.endT`, and
`processed_queries` is cleared when it exceeds 1000 entries. -/
def sync_domains (st : SyncState) (sets : NftSets)
    (domainMap : List (String × String × List Query))
    (fromIso : String → Option PyDatetime)
    (oracle : String → String → NftOutcome) (env : ClockEnv) : SyncResult :=
  if domainMap.isEmpty then ⟨st, sets, 0, [], []⟩
  else
    let acc0 : SyncAcc := ⟨st.processed_queries, sets, 0, [], []⟩
    let acc := domainMap.foldl
      (fun a dq => dq.2.2.foldl (processQuery fromIso env.nowParse st.last_check oracle dq.2.1) a)
      acc0
    let processed := if acc.processed.length > 1000 then [] else acc.processed
    ⟨⟨processed, env.endT⟩, acc.nftSets, acc.added, acc.insertLog, acc.mutLog⟩

/-! ### Spec-side definitions used by the claim statements -/

/-- An address that passes the filter at source line 341: not `0.0.0.0` and
not `127.`-prefixed (which, for dotted-quad IPv4 literals, is exactly the
loopback range 127.0.0.0/8). -/
def goodIP (ip : String) : Bool :=
  !(ip == "0.0.0.0") && !(isPrefixL "127.".data ip.data)

/-- The set name assigned by the header branch of the `discover_sets` line
loop for a given raw line, if any. -/
def headerName (rawLine : List Char) : Option String :=
  let line := pyStrip rawLine
  if containsSub "set pbr_".data line && containsSub ['\x7b'] line then
    Option.map String.mk (searchSetName line)
  else none

/-! ### Helper lemmas on the dictionary and set models -/

theorem contains_setInsert (l : List String) (x : String) :
    (setInsert l x).contains x = true := by
  unfold setInsert
  by_cases h : l.contains x = true
  · rw [if_pos h]
    exact h
  · rw [if_neg h]
    simp

theorem mem_setInsert_of_mem (l : List String) (x y : String) (h : x ∈ l) :
    x ∈ setInsert l y := by
  unfold setInsert
  by_cases hc : l.contains y = true
  · rw [if_pos hc]
    exact h
  · rw [if_neg hc]
    exact List.mem_append_left _ h

theorem alistLookup_append_left {α : Type} (l l2 : List (String × α)) (k : String)
    (v : α) (h : alistLookup l k = some v) : alistLookup (l ++ l2) k = some v := by
  induction l with
  | nil => simp [alistLookup] at h
  | cons p rest ih =>
    obtain ⟨k1, v1⟩ := p
    by_cases hk : k1 = k
    · simpa [alistLookup, hk] using h
    · simp only [alistLookup, List.cons_append, if_neg hk] at h ⊢
      exact ih h

theorem alistLookup_append_right {α : Type} (l : List (String × α)) (k : String)
    (v : α) (h : alistLookup l k = none) : alistLookup (l ++ [(k, v)]) k = some v := by
  induction l with
  | nil => simp [alistLookup]
  | cons p rest ih =>
    obtain ⟨k1, v1⟩ := p
    by_cases hk : k1 = k
    · simp [alistLookup, hk] at h
    · simp only [alistLookup, List.cons_append, if_neg hk] at h ⊢
      exact ih h

theorem alistLookup_alistModify_self {α : Type} (l : List (String × α)) (k : String)
    (f : α → α) : alistLookup (alistModify l k f) k = (alistLookup l k).map f := by
  induction l with
  | nil => simp [alistLookup, alistModify]
  | cons p rest ih =>
    obtain ⟨k1, v1⟩ := p
    by_cases hk : k1 = k
    · simp [alistLookup, alistModify, hk]
    · simp only [alistModify, if_neg hk]
      simp only [alistLookup, if_neg hk]
      exact ih

theorem alistLookup_alistModify_ne {α : Type} (l : List (String × α)) (k k2 : String)
    (f : α → α) (h : k ≠ k2) :
    alistLookup (alistModify l k f) k2 = alistLookup l k2 := by
  induction l with
  | nil => simp [alistModify]
  | cons p rest ih =>
    obtain ⟨k1, v1⟩ := p
    by_cases hk : k1 = k
    · subst hk
      simp only [alistModify, if_pos rfl]
      simp [alistLookup, h]
    · simp only [alistModify, if_neg hk]
      by_cases hk2 : k1 = k2
      · simp [alistLookup, hk2]
      · simp only [alistLookup, if_neg hk2]
        exact ih

theorem alistLookup_alistUpdate_self {α : Type} (l : List (String × α)) (k : String)
    (v : α) : alistLookup (alistUpdate l k v) k = some v := by
  induction l with
  | nil => simp [alistLookup, alistUpdate]
  | cons p rest ih =>
    obtain ⟨k1, v1⟩ := p
    by_cases hk : k1 = k
    · simp [alistUpdate, alistLookup, hk]
    · simp only [alistUpdate, if_neg hk]
      simp only [alistLookup, if_neg hk]
      exact ih

theorem alistLookup_alistUpdate_ne {α : Type} (l : List (String × α)) (k k2 : String)
    (v : α) (h : k ≠ k2) :
    alistLookup (alistUpdate l k v) k2 = alistLookup l k2 := by
  induction l with
  | nil => simp [alistLookup, alistUpdate, h]
  | cons p rest ih =>
    obtain ⟨k1, v1⟩ := p
    by_cases hk : k1 = k
    · subst hk
      simp only [alistUpdate, if_pos rfl]
      simp [alistLookup, h]
    · simp only [alistUpdate, if_neg hk]
      by_cases hk2 : k1 = k2
      · simp [alistLookup, hk2]
      · simp only [alistLookup, if_neg hk2]
        exact ih

theorem isSome_alistLookup_alistUpdate {α : Type} (l : List (String × α))
    (k k2 : String) (v : α) (h : (alistLookup l k).isSome) :
    (alistLookup (alistUpdate l k2 v) k).isSome := by
  by_cases hk : k2 = k
  · subst hk
    simp [alistLookup_alistUpdate_self]
  · rw [alistLookup_alistUpdate_ne l k2 k v hk]
    exact h

theorem isSome_alistLookup_alistModify {α : Type} (l : List (String × α))
    (k k2 : String) (f : α → α) (h : (alistLookup l k).isSome) :
    (alistLookup (alistModify l k2 f) k).isSome := by
  by_cases hk : k2 = k
  · subst hk
    rw [alistLookup_alistModify_self]
    obtain ⟨a, ha⟩ := Option.isSome_iff_exists.mp h
    simp [ha]
  · rw [alistLookup_alistModify_ne l k2 k f hk]
    exact h

theorem mem_alistUpdate {α : Type} (l : List (String × α)) (k : String) (v : α)
    (pp : String × α) (h : pp ∈ alistUpdate l k v) : pp = (k, v) ∨ pp ∈ l := by
  induction l with
  | nil =>
    simp only [alistUpdate] at h
    exact Or.inl (List.mem_singleton.mp h)
  | cons p rest ih =>
    obtain ⟨k1, v1⟩ := p
    by_cases hk : k1 = k
    · simp only [alistUpdate, if_pos hk] at h
      rcases List.mem_cons.mp h with h1 | h1
      · exact Or.inl h1
      · exact Or.inr (List.mem_cons_of_mem _ h1)
    · simp only [alistUpdate, if_neg hk] at h
      rcases List.mem_cons.mp h with h1 | h1
      · exact Or.inr (h1 ▸ List.mem_cons_self _ _)
      · rcases ih h1 with h2 | h2
        · exact Or.inl h2
        · exact Or.inr (List.mem_cons_of_mem _ h2)

theorem mem_alistModify {α : Type} (l : List (String × α)) (k : String) (f : α → α)
    (pp : String × α) (h : pp ∈ alistModify l k f) :
    (∃ q ∈ l, pp = (k, f q.2)) ∨ pp ∈ l := by
  induction l with
  | nil => simp [alistModify] at h
  | cons p rest ih =>
    obtain ⟨k1, v1⟩ := p
    by_cases hk : k1 = k
    · simp only [alistModify, if_pos hk] at h
      rcases List.mem_cons.mp h with h1 | h1
      · exact Or.inl ⟨(k1, v1), List.mem_cons_self _ _, h1⟩
      · exact Or.inr (List.mem_cons_of_mem _ h1)
    · simp only [alistModify, if_neg hk] at h
      rcases List.mem_cons.mp h with h1 | h1
      · exact Or.inr (h1 ▸ List.mem_cons_self _ _)
      · rcases ih h1 with ⟨q, hq, he⟩ | h2
        · exact Or.inl ⟨q, List.mem_cons_of_mem _ hq, he⟩
        · exact Or.inr (List.mem_cons_of_mem _ h2)

/-! ### Claim C2: the domain-validity predicate -/

theorem length_le_of_labelOk (lab : List Char) (h : labelOk lab = true) :
    lab.length ≤ 63 := by
  unfold labelOk at h
  split at h
  · exact of_decide_eq_true
      (Bool.and_eq_true_iff.mp (Bool.and_eq_true_iff.mp (Bool.and_eq_true_iff.mp h).1).1).1
  · exact absurd h (by simp)

theorem labelOk_eq_false_of_long (lab : List Char) (h : 63 < lab.length) :
    labelOk lab = false := by
  cases hok : labelOk lab
  · rfl
  · exact absurd (length_le_of_labelOk lab hok) (Nat.not_le.mpr h)

theorem domainFullMatch_false_of_long (l lab : List Char)
    (hmem : lab ∈ splitChar '.' l) (hlen : 63 < lab.length) :
    domainFullMatch l = false := by
  unfold domainFullMatch
  cases hall : (splitChar '.' l).all labelOk
  · rfl
  · have hok := List.all_eq_true.mp hall lab hmem
    rw [labelOk_eq_false_of_long lab hlen] at hok
    exact absurd hok (by simp)

/-- Any string without an embedded newline one of whose dot-separated
components is longer than 63 characters fails `is_domain` (the newline
hypothesis matters only because the `$` of `re.match` also accepts a single
trailing newline; tokens tested by the source come from whitespace splitting
and therefore contain none). -/
theorem is_domain_false_of_long_label (s : String) (lab : List Char)
    (hnl : ('\n' : Char) ∉ s.data) (hmem : lab ∈ splitChar '.' s.data)
    (hlen : 63 < lab.length) : is_domain s = false := by
  have hdollar : pyDollarMatch s.data = false := by
    unfold pyDollarMatch
    rw [domainFullMatch_false_of_long s.data lab hmem hlen]
    cases hlast : s.data.getLast? with
    | none => rfl
    | some c =>
      have hc : (c == '\n') = false := by
        cases hcc : c == '\n'
        · rfl
        · exact absurd (eq_of_beq hcc ▸ List.mem_of_mem_getLast? hlast) hnl
      dsimp only
      rw [hc]
      rfl
  unfold is_domain
  rw [hdollar]
  rfl

/-- C2 counterexample: the claim says every raw IPv4 literal is a
non-matching token that is dropped from the domain list of a policy.  In fact the
regex accepts all-numeric labels, so `is_domain "192.0.2.1"` is `true` and
the literal is *kept* by the `dest_addr` filter. -/
theorem C2_counterexample :
    is_domain "192.0.2.1" = true ∧
    alistLookup
      (load_config []
        (Except.ok "pbr.@policy[0]=policy\npbr.@policy[0].dest_addr=\"192.0.2.1 example.com\""))
      "0" = some ⟨"", "", ["192.0.2.1", "example.com"], true⟩ := by
  constructor
  · decide
  · decide

/-- C2 amended: the predicate accepts `"example.com"` and `"a.b"`, rejects
`"-bad.com"`, and — universally — rejects every token containing a
dot-separated label longer than 63 characters (for any newline-free string,
which covers every token the source ever tests, since candidates come from
whitespace splitting of `dest_addr`); but it *accepts* raw IPv4 literals such
as `"192.0.2.1"` (all-numeric labels match), so raw IPs are kept in the
domain list of a policy; tokens that really fail the pattern (such as a CIDR
range) are silently dropped. -/
theorem C2_domain_validity :
    is_domain "example.com" = true ∧
    is_domain "a.b" = true ∧
    is_domain "-bad.com" = false ∧
    is_domain "aaaaaaaaaaaaaaaaaaaaaaaaaaaaaaaaaaaaaaaaaaaaaaaaaaaaaaaaaaaaaaaaaaaaaa.com"
      = false ∧
    (∀ (s : String) (lab : List Char), ('\n' : Char) ∉ s.data →
      lab ∈ splitChar '.' s.data → 63 < lab.length → is_domain s = false) ∧
    is_domain "192.0.2.1" = true ∧
    is_domain "192.0.2.0/24" = false ∧
    ((splitWS "192.0.2.1 10.0.0.0/8 example.com".data).filter
        (fun d => is_domain (String.mk d))).map String.mk
      = ["192.0.2.1", "example.com"] := by
  refine ⟨by decide, by decide, by decide, by decide,
    fun s lab hnl hmem hlen => is_domain_false_of_long_label s lab hnl hmem hlen,
    by decide, by decide, by decide⟩

theorem C2_domain_validity_witness :
    (('\n' : Char) ∉
        ("x.aaaaaaaaaaaaaaaaaaaaaaaaaaaaaaaaaaaaaaaaaaaaaaaaaaaaaaaaaaaaaaaaaaaaaa.com" : String).data ∧
      "aaaaaaaaaaaaaaaaaaaaaaaaaaaaaaaaaaaaaaaaaaaaaaaaaaaaaaaaaaaaaaaaaaaaaa".data ∈
        splitChar '.'
          ("x.aaaaaaaaaaaaaaaaaaaaaaaaaaaaaaaaaaaaaaaaaaaaaaaaaaaaaaaaaaaaaaaaaaaaaa.com" : String).data ∧
      63 < "aaaaaaaaaaaaaaaaaaaaaaaaaaaaaaaaaaaaaaaaaaaaaaaaaaaaaaaaaaaaaaaaaaaaaa".data.length) ∧
    is_domain "x.aaaaaaaaaaaaaaaaaaaaaaaaaaaaaaaaaaaaaaaaaaaaaaaaaaaaaaaaaaaaaaaaaaaaaa.com"
      = false :=
  ⟨⟨by decide, by decide, by decide⟩,
   C2_domain_validity.2.2.2.2.1
     "x.aaaaaaaaaaaaaaaaaaaaaaaaaaaaaaaaaaaaaaaaaaaaaaaaaaaaaaaaaaaaaaaaaaaaaa.com"
     "aaaaaaaaaaaaaaaaaaaaaaaaaaaaaaaaaaaaaaaaaaaaaaaaaaaaaaaaaaaaaaaaaaaaaa".data
     (by decide) (by decide) (by decide)⟩

/-! ### Claim C4: load errors leave the previous policy set untouched -/

/-- C4: if the policy fetch fails (any transport error from the `uci`
subprocess), `load_config` leaves the previous in-memory policy set
completely untouched.  The reset `self.policies = {}` sits *after* the
subprocess call, and every step of the parse loop (`pbrLineStep`) is a total
function, so the `except` branch — the only error path — is reached only
before any mutation of the policy set. -/
theorem C4_load_error_keeps_previous_policies (prev : List (String × Policy))
    (e : String) : load_config prev (Except.error e) = prev := rfl

/-! ### Claim C6: freshness — stale records are never processed -/

/-- C6: a resolution record whose parsed timestamp is `≤ last_check` (the
pass-constant value read at the start of the pass) is never processed: the
per-record step returns the accumulator unchanged, so no event identity is
recorded, no `add_ip_to_set` call is made and no nft command is issued, even
if the identity of the record was never seen before. -/
theorem C6_stale_record_never_processed (fromIso : String → Option PyDatetime)
    (nowParse lastCheck : Nat) (oracle : String → String → NftOutcome)
    (iface : String) (acc : SyncAcc) (q : Query)
    (h : (parse_query_time fromIso nowParse q.time).val ≤ lastCheck) :
    processQuery fromIso nowParse lastCheck oracle iface acc q = acc := by
  unfold processQuery
  rw [if_pos h]

theorem C6_stale_record_never_processed_witness :
    (parse_query_time (fun _ => some ⟨3, true⟩) 9 "t").val ≤ 5 ∧
    processQuery (fun _ => some ⟨3, true⟩) 9 5 (fun _ _ => NftOutcome.ret 0) "wan"
      ⟨[], [("pbr_x", ⟨some "wan", []⟩)], 0, [], []⟩
      ⟨"t", "example.com", "10.0.0.2", [⟨"A", "93.184.216.34"⟩]⟩
      = ⟨[], [("pbr_x", ⟨some "wan", []⟩)], 0, [], []⟩ :=
  ⟨by decide,
   C6_stale_record_never_processed (fun _ => some ⟨3, true⟩) 9 5
     (fun _ _ => NftOutcome.ret 0) "wan"
     ⟨[], [("pbr_x", ⟨some "wan", []⟩)], 0, [], []⟩
     ⟨"t", "example.com", "10.0.0.2", [⟨"A", "93.184.216.34"⟩]⟩ (by decide)⟩

/-! ### Claim C10: totality of `parse_query_time` -/

/-- C10: `parse_query_time` is total and always yields a timezone-aware
instant — a parse result lacking timezone info is stamped UTC, and on any
parse failure the `except` branch falls back to the current clock reading
`now`.  Hence the comparison against the (timezone-aware) `last_check` in the
sync pass is always well-defined, and as long as the clock has advanced past
`last_check` (`lastCheck < now`), a record with an unparseable time is
classified as newer than `last_check`. -/
theorem C10_parse_query_time_total (fromIso : String → Option PyDatetime)
    (s : String) (now lastCheck : Nat) :
    (parse_query_time fromIso now s).tz = true ∧
    (fromIso (normalizeZ s) = none →
      (parse_query_time fromIso now s).val = now ∧
      (lastCheck < now → ¬((parse_query_time fromIso now s).val ≤ lastCheck))) := by
  constructor
  · unfold parse_query_time
    cases h : fromIso (normalizeZ s) with
    | none => rfl
    | some dt =>
      by_cases htz : dt.tz = true
      · simp [htz]
      · simp [htz]
  · intro hnone
    unfold parse_query_time
    rw [hnone]
    exact ⟨rfl, fun hlt hle => absurd hle (by simpa using Nat.not_le.mpr hlt)⟩

theorem C10_parse_query_time_total_witness :
    (parse_query_time (fun _ => none) 9 "garbage").tz = true ∧
    (parse_query_time (fun _ => none) 9 "garbage").val = 9 ∧
    ¬((parse_query_time (fun _ => none) 9 "garbage").val ≤ 5) := by
  have h := C10_parse_query_time_total (fun _ => none) "garbage" 9 5
  have h2 := h.2 rfl
  exact ⟨h.1, h2.1, h2.2 (by decide)⟩

/-! ### Claim C5: idempotence of `add_ip_to_set` -/

/-- C5: once `add_ip_to_set` has succeeded for `(set, ip)`, calling it again
with the same arguments returns success, leaves the cached member sets
unchanged, and issues no firewall command: every success path of the first
call puts `ip` into the cached member set of `set`, so the second call hits
the early-return branch. -/
theorem C5_insert_idempotent (sets : NftSets) (s ip : String)
    (o1 o2 : NftOutcome) (h : (add_ip_to_set sets s ip o1).1 = true) :
    add_ip_to_set (add_ip_to_set sets s ip o1).2.1 s ip o2 =
      (true, (add_ip_to_set sets s ip o1).2.1, false) := by
  unfold add_ip_to_set at h ⊢
  by_cases hc : (match alistLookup sets s with
    | some info => info.elements.contains ip
    | none => false) = true
  · rw [if_pos hc] at h ⊢
    rw [if_pos hc]
  · rw [if_neg hc] at h ⊢
    cases o1 with
    | raise => simp at h
    | ret code =>
      cases code with
      | succ n => simp at h
      | zero =>
        simp only
        by_cases hs : (alistLookup sets s).isSome = true
        · rw [if_pos hs]
          have hl : alistLookup
              (alistModify sets s (fun i => { i with elements := setInsert i.elements ip })) s
              = (alistLookup sets s).map
                  (fun i => { i with elements := setInsert i.elements ip }) :=
            alistLookup_alistModify_self sets s _
          obtain ⟨info, hinfo⟩ := Option.isSome_iff_exists.mp hs
          rw [hinfo] at hl
          rw [if_pos (by rw [hl]; simpa using contains_setInsert info.elements ip)]
        · rw [if_neg hs]
          have hnone : alistLookup sets s = none := by
            cases hx : alistLookup sets s
            · rfl
            · simp [hx] at hs
          have hl := alistLookup_append_right sets s (⟨none, [ip]⟩ : NftSetInfo) hnone
          rw [if_pos (by rw [hl]; simp)]

theorem C5_insert_idempotent_witness :
    (add_ip_to_set [] "pbr_a" "1.2.3.4" (NftOutcome.ret 0)).1 = true ∧
    add_ip_to_set (add_ip_to_set [] "pbr_a" "1.2.3.4" (NftOutcome.ret 0)).2.1
        "pbr_a" "1.2.3.4" NftOutcome.raise =
      (true, (add_ip_to_set [] "pbr_a" "1.2.3.4" (NftOutcome.ret 0)).2.1, false) :=
  ⟨by decide,
   C5_insert_idempotent [] "pbr_a" "1.2.3.4" (NftOutcome.ret 0) NftOutcome.raise
     (by decide)⟩

/-! ### Claim C7: deduplication of identical records -/

theorem processAnswer_processed (oracle : String → String → NftOutcome)
    (iface : String) (acc : SyncAcc) (ans : Answer) :
    (processAnswer oracle iface acc ans).processed = acc.processed := by
  unfold processAnswer
  by_cases h1 : (ans.rtype == "A" && !(ans.value == "")) = true
  · rw [if_pos h1]
    by_cases h2 : (ans.value == "0.0.0.0" || isPrefixL "127.".data ans.value.data) = true
    · rw [if_pos h2]
    · rw [if_neg h2]
      cases find_set_for_interface acc.nftSets iface with
      | none => rfl
      | some s => rfl
  · rw [if_neg h1]

theorem foldl_processAnswer_processed (oracle : String → String → NftOutcome)
    (iface : String) (l : List Answer) (acc : SyncAcc) :
    (l.foldl (processAnswer oracle iface) acc).processed = acc.processed := by
  induction l generalizing acc with
  | nil => rfl
  | cons a rest ih =>
    rw [List.foldl_cons, ih, processAnswer_processed]

/-- C7: processing the same resolution record a second time — in the same
pass, whatever interface the second fetch was made for and whatever the
firewall oracle would answer — is a no-op: the final state (member caches,
processed identities, counters and both instrumentation logs) equals that of
processing it once, so the duplicate causes no additional `add_ip_to_set`
call and no additional firewall mutation.  The first processing either left
the record unprocessed for staleness (then so does the second) or recorded
its event identity, which the second hit in `processed_queries`. -/
theorem C7_duplicate_record_no_second_effect (fromIso : String → Option PyDatetime)
    (nowParse lastCheck : Nat) (o1 o2 : String → String → NftOutcome)
    (i1 i2 : String) (acc : SyncAcc) (q : Query) :
    processQuery fromIso nowParse lastCheck o2 i2
      (processQuery fromIso nowParse lastCheck o1 i1 acc q) q =
    processQuery fromIso nowParse lastCheck o1 i1 acc q := by
  unfold processQuery
  by_cases h1 : (parse_query_time fromIso nowParse q.time).val ≤ lastCheck
  · rw [if_pos h1, if_pos h1]
  · rw [if_neg h1]
    by_cases h2 : acc.processed.contains (queryId q) = true
    · rw [if_pos h2, if_neg h1, if_pos h2]
    · rw [if_neg h2, if_neg h1]
      rw [if_pos (by
        rw [foldl_processAnswer_processed]
        exact contains_setInsert acc.processed (queryId q))]

/-! ### Claim C1: how `last_check` is advanced -/

/-- C1 counterexample: the claim says `last_check` is advanced to the time at
which the pass *started*.  In fact `sync_domains` assigns
`datetime.now(timezone.utc)` *after* all domains are processed, i.e. the
pass-end reading: in a pass running from instant 10 to instant 20, the new
`last_check` is 20, not the start time 10.  A record logged mid-pass (say at
instant 15) after its domain had been fetched is therefore `≤ last_check` on
the next pass and is missed, exactly the racing-clock update the claim rules
out. -/
theorem C1_counterexample :
    (sync_domains ⟨[], 0⟩ [] [("example.com", "wan", [])] (fun _ => none)
        (fun _ _ => NftOutcome.ret 0) ⟨10, 12, 20⟩).state.last_check
      ≠ (⟨10, 12, 20⟩ : ClockEnv).startT ∧
    (sync_domains ⟨[], 0⟩ [] [("example.com", "wan", [])] (fun _ => none)
        (fun _ _ => NftOutcome.ret 0) ⟨10, 12, 20⟩).state.last_check
      = (⟨10, 12, 20⟩ : ClockEnv).endT := by
  constructor
  · decide
  · decide

/-- C1 amended: at the end of every sync pass over a non-empty domain map,
`last_check` is advanced to the clock reading taken *after* the last domain
is processed (the pass-end time, not the pass-start time and not a
per-record time); provided the clock is monotone (`last_check ≤ endT`), the
advance is monotone. -/
theorem C1_last_check_pass_end (st : SyncState) (sets : NftSets)
    (domainMap : List (String × String × List Query))
    (fromIso : String → Option PyDatetime) (oracle : String → String → NftOutcome)
    (env : ClockEnv) (hne : domainMap ≠ []) (hmono : st.last_check ≤ env.endT) :
    (sync_domains st sets domainMap fromIso oracle env).state.last_check = env.endT ∧
    st.last_check ≤ (sync_domains st sets domainMap fromIso oracle env).state.last_check := by
  cases domainMap with
  | nil => exact absurd rfl hne
  | cons d rest => exact ⟨rfl, hmono⟩

theorem C1_last_check_pass_end_witness :
    ((([("example.com", "wan", [])] : List (String × String × List Query)) ≠ []) ∧
      (7 : Nat) ≤ 20) ∧
    (sync_domains ⟨[], 7⟩ [] [("example.com", "wan", [])] (fun _ => none)
        (fun _ _ => NftOutcome.ret 0) ⟨10, 12, 20⟩).state.last_check = 20 ∧
    (7 : Nat) ≤ (sync_domains ⟨[], 7⟩ [] [("example.com", "wan", [])] (fun _ => none)
        (fun _ _ => NftOutcome.ret 0) ⟨10, 12, 20⟩).state.last_check :=
  ⟨⟨by decide, by decide⟩,
   C1_last_check_pass_end ⟨[], 7⟩ [] [("example.com", "wan", [])] (fun _ => none)
     (fun _ _ => NftOutcome.ret 0) ⟨10, 12, 20⟩ (by decide) (by decide)⟩

/-! ### Claim C3: defaults for missing policy fields -/

theorem pbrLineStep_enabled_true (st : ConfigSt) (line : List Char)
    (hline : containsSub "enabled=".data line = false)
    (h : ∀ pp ∈ st.policies, pp.2.enabled = true) :
    ∀ pp ∈ (pbrLineStep st line).policies, pp.2.enabled = true := by
  intro pp hpp
  unfold pbrLineStep at hpp
  by_cases h1 : containsSub "=policy".data line = true
  · rw [if_pos h1] at hpp
    cases hid : searchPolicyId line with
    | none =>
      rw [hid] at hpp
      exact h pp hpp
    | some pid =>
      rw [hid] at hpp
      rcases mem_alistUpdate _ _ _ _ hpp with he | hm
      · rw [he]
        rfl
      · exact h pp hm
  · rw [if_neg h1] at hpp
    cases hc : st.current with
    | none =>
      rw [hc] at hpp
      exact h pp hpp
    | some cp =>
      rw [hc] at hpp
      dsimp only at hpp
      by_cases h2 : containsSub "name=".data line = true
      · rw [if_pos h2] at hpp
        rcases mem_alistModify _ _ _ _ hpp with ⟨q, hq, he⟩ | hm
        · rw [he]
          exact h q hq
        · exact h pp hm
      · rw [if_neg h2] at hpp
        by_cases h3 : containsSub "interface=".data line = true
        · rw [if_pos h3] at hpp
          rcases mem_alistModify _ _ _ _ hpp with ⟨q, hq, he⟩ | hm
          · rw [he]
            exact h q hq
          · exact h pp hm
        · rw [if_neg h3] at hpp
          by_cases h4 : containsSub "dest_addr=".data line = true
          · rw [if_pos h4] at hpp
            rcases mem_alistModify _ _ _ _ hpp with ⟨q, hq, he⟩ | hm
            · rw [he]
              exact h q hq
            · exact h pp hm
          · rw [if_neg h4] at hpp
            rw [if_neg (by rw [hline]; exact Bool.false_ne_true)] at hpp
            exact h pp hpp

theorem foldl_pbrLineStep_enabled_true (lines : List (List Char)) (st : ConfigSt)
    (hlines : ∀ l ∈ lines, containsSub "enabled=".data l = false)
    (h : ∀ pp ∈ st.policies, pp.2.enabled = true) :
    ∀ pp ∈ (lines.foldl pbrLineStep st).policies, pp.2.enabled = true := by
  induction lines generalizing st with
  | nil => exact h
  | cons l rest ih =>
    rw [List.foldl_cons]
    exact ih _ (fun x hx => hlines x (List.mem_cons_of_mem _ hx))
      (pbrLineStep_enabled_true st l (hlines l (List.mem_cons_self _ _)) h)

/-- C3 counterexample: the claim says a policy definition with no `enabled`
field is treated as disabled and its domains stay out of the active domain
map.  In fact the parser initializes `enabled` to `True` («По умолчанию
политика активна»), so such a policy is active and its domains are routed. -/
theorem C3_counterexample :
    alistLookup
      (load_config []
        (Except.ok
          "pbr.@policy[0]=policy\npbr.@policy[0].interface=\"wan\"\npbr.@policy[0].dest_addr=\"example.com\""))
      "0" = some ⟨"", "wan", ["example.com"], true⟩ ∧
    alistLookup
      (get_all_domains
        (load_config []
          (Except.ok
            "pbr.@policy[0]=policy\npbr.@policy[0].interface=\"wan\"\npbr.@policy[0].dest_addr=\"example.com\"")))
      "example.com" = some "wan" := by
  constructor
  · decide
  · decide

/-- C3 amended: a policy record missing a field gets the parser defaults
`name = ""`, `interface = ""`, `domains = []` — but `enabled = true`, not
false: a policy definition with no `enabled` line is treated as *enabled*
(every parsed policy of an `enabled=`-free configuration is enabled), and
its domains *do* enter the active domain map. -/
theorem C3_missing_fields_defaults (lines : List (List Char))
    (hlines : ∀ l ∈ lines, containsSub "enabled=".data l = false) :
    (∀ pp ∈ parse_pbr_lines lines, pp.2.enabled = true) ∧
    parse_pbr_lines ["pbr.@policy[0]=policy".data] = [("0", defaultPolicy)] ∧
    defaultPolicy = ⟨"", "", [], true⟩ ∧
    alistLookup
      (get_all_domains
        (load_config []
          (Except.ok
            "pbr.@policy[0]=policy\npbr.@policy[0].dest_addr=\"example.com\"")))
      "example.com" = some "" := by
  refine ⟨?_, by decide, rfl, by decide⟩
  exact foldl_pbrLineStep_enabled_true lines ⟨[], none⟩ hlines (by intro pp hpp; simp at hpp)

theorem C3_missing_fields_defaults_witness :
    (∀ l ∈ ["pbr.@policy[0]=policy".data,
            "pbr.@policy[0].interface=\"wan\"".data],
      containsSub "enabled=".data l = false) ∧
    (∀ pp ∈ parse_pbr_lines ["pbr.@policy[0]=policy".data,
                             "pbr.@policy[0].interface=\"wan\"".data],
      pp.2.enabled = true) :=
  ⟨by decide,
   (C3_missing_fields_defaults
     ["pbr.@policy[0]=policy".data, "pbr.@policy[0].interface=\"wan\"".data]
     (by decide)).1⟩

/-! ### Claim C8: filtered addresses never reach `add_ip_to_set` -/

theorem mem_insertLog_processAnswer (o : String → String → NftOutcome) (i : String)
    (a : SyncAcc) (ans : Answer) (pr : String × String)
    (h : pr ∈ (processAnswer o i a ans).insertLog) :
    pr ∈ a.insertLog ∨ goodIP pr.2 = true := by
  unfold processAnswer at h
  by_cases h1 : (ans.rtype == "A" && !(ans.value == "")) = true
  · rw [if_pos h1] at h
    by_cases h2 : (ans.value == "0.0.0.0" || isPrefixL "127.".data ans.value.data) = true
    · rw [if_pos h2] at h
      exact Or.inl h
    · rw [if_neg h2] at h
      cases hf : find_set_for_interface a.nftSets i with
      | none =>
        rw [hf] at h
        exact Or.inl h
      | some s =>
        rw [hf] at h
        dsimp only at h
        rcases List.mem_append.mp h with h3 | h3
        · exact Or.inl h3
        · right
          rw [List.mem_singleton.mp h3]
          simp only [Bool.or_eq_true, not_or, Bool.not_eq_true] at h2
          simp [goodIP, h2.1, h2.2]
  · rw [if_neg h1] at h
    exact Or.inl h

theorem mem_insertLog_foldl_answers (o : String → String → NftOutcome) (i : String)
    (l : List Answer) (a : SyncAcc) (pr : String × String)
    (h : pr ∈ (l.foldl (processAnswer o i) a).insertLog) :
    pr ∈ a.insertLog ∨ goodIP pr.2 = true := by
  induction l generalizing a with
  | nil => exact Or.inl h
  | cons x rest ih =>
    rw [List.foldl_cons] at h
    rcases ih _ h with h1 | h1
    · exact mem_insertLog_processAnswer o i a x pr h1
    · exact Or.inr h1

theorem mem_insertLog_processQuery (fromIso : String → Option PyDatetime)
    (nowParse lastCheck : Nat) (o : String → String → NftOutcome) (i : String)
    (acc : SyncAcc) (q : Query) (pr : String × String)
    (h : pr ∈ (processQuery fromIso nowParse lastCheck o i acc q).insertLog) :
    pr ∈ acc.insertLog ∨ goodIP pr.2 = true := by
  unfold processQuery at h
  by_cases h1 : (parse_query_time fromIso nowParse q.time).val ≤ lastCheck
  · rw [if_pos h1] at h
    exact Or.inl h
  · rw [if_neg h1] at h
    by_cases h2 : acc.processed.contains (queryId q) = true
    · rw [if_pos h2] at h
      exact Or.inl h
    · rw [if_neg h2] at h
      dsimp only at h
      exact mem_insertLog_foldl_answers o i q.answer
        ⟨setInsert acc.processed (queryId q), acc.nftSets, acc.added,
          acc.insertLog, acc.mutLog⟩ pr h

theorem mem_insertLog_foldl_queries (fromIso : String → Option PyDatetime)
    (nowParse lastCheck : Nat) (o : String → String → NftOutcome) (i : String)
    (qs : List Query) (acc : SyncAcc) (pr : String × String)
    (h : pr ∈ (qs.foldl (processQuery fromIso nowParse lastCheck o i) acc).insertLog) :
    pr ∈ acc.insertLog ∨ goodIP pr.2 = true := by
  induction qs generalizing acc with
  | nil => exact Or.inl h
  | cons q rest ih =>
    rw [List.foldl_cons] at h
    rcases ih _ h with h1 | h1
    · exact mem_insertLog_processQuery fromIso nowParse lastCheck o i acc q pr h1
    · exact Or.inr h1

theorem mem_insertLog_foldl_domains (fromIso : String → Option PyDatetime)
    (nowParse lastCheck : Nat) (o : String → String → NftOutcome)
    (dm : List (String × String × List Query)) (acc : SyncAcc) (pr : String × String)
    (h : pr ∈ (dm.foldl
        (fun a dq => dq.2.2.foldl (processQuery fromIso nowParse lastCheck o dq.2.1) a)
        acc).insertLog) :
    pr ∈ acc.insertLog ∨ goodIP pr.2 = true := by
  induction dm generalizing acc with
  | nil => exact Or.inl h
  | cons d rest ih =>
    rw [List.foldl_cons] at h
    rcases ih _ h with h1 | h1
    · exact mem_insertLog_foldl_queries fromIso nowParse lastCheck o d.2.1 d.2.2 acc pr h1
    · exact Or.inr h1

/-- C8: a sync pass never passes `0.0.0.0`, nor any `127.`-prefixed address
(the loopback range, for dotted-quad literals), to `add_ip_to_set`, whatever
the fetched records contain; and a non-filtered answer value such as
`93.184.216.34` *is* passed to insertion (and inserted, the oracle
succeeding) when a set bound to the interface of the domain exists — in the
concrete run below, the record also carries `127.0.0.1` and `0.0.0.0`
answers, and the only insertion call of the whole pass is for
`93.184.216.34`. -/
theorem C8_loopback_and_zero_never_inserted (st : SyncState) (sets : NftSets)
    (domainMap : List (String × String × List Query))
    (fromIso : String → Option PyDatetime) (oracle : String → String → NftOutcome)
    (env : ClockEnv) :
    (∀ pr ∈ (sync_domains st sets domainMap fromIso oracle env).insertLog,
        pr.2 ≠ "0.0.0.0" ∧ isPrefixL "127.".data pr.2.data = false) ∧
    (sync_domains ⟨[], 0⟩ [("pbr_x", ⟨some "wan", []⟩)]
        [("example.com", "wan",
          [⟨"2024-01-01T00:00:05Z", "example.com", "10.0.0.2",
            [⟨"A", "93.184.216.34"⟩, ⟨"A", "127.0.0.1"⟩, ⟨"A", "0.0.0.0"⟩]⟩])]
        (fun s => if s == "2024-01-01T00:00:05+00:00" then some ⟨5, true⟩ else none)
        (fun _ _ => NftOutcome.ret 0) ⟨1, 3, 9⟩).insertLog
      = [("pbr_x", "93.184.216.34")] ∧
    (sync_domains ⟨[], 0⟩ [("pbr_x", ⟨some "wan", []⟩)]
        [("example.com", "wan",
          [⟨"2024-01-01T00:00:05Z", "example.com", "10.0.0.2",
            [⟨"A", "93.184.216.34"⟩, ⟨"A", "127.0.0.1"⟩, ⟨"A", "0.0.0.0"⟩]⟩])]
        (fun s => if s == "2024-01-01T00:00:05+00:00" then some ⟨5, true⟩ else none)
        (fun _ _ => NftOutcome.ret 0) ⟨1, 3, 9⟩).nftSets
      = [("pbr_x", ⟨some "wan", ["93.184.216.34"]⟩)] := by
  refine ⟨?_, by decide, by decide⟩
  intro pr hpr
  unfold sync_domains at hpr
  by_cases he : domainMap.isEmpty = true
  · rw [if_pos he] at hpr
    simp at hpr
  · rw [if_neg he] at hpr
    dsimp only at hpr
    rcases mem_insertLog_foldl_domains fromIso env.nowParse st.last_check oracle
        domainMap ⟨st.processed_queries, sets, 0, [], []⟩ pr hpr with h1 | h1
    · simp at h1
    · simp only [goodIP, Bool.and_eq_true, Bool.not_eq_true'] at h1
      exact ⟨by simpa using h1.1, h1.2⟩

theorem C8_loopback_and_zero_never_inserted_witness :
    ("pbr_x", "93.184.216.34") ∈
      (sync_domains ⟨[], 0⟩ [("pbr_x", ⟨some "wan", []⟩)]
        [("example.com", "wan",
          [⟨"2024-01-01T00:00:05Z", "example.com", "10.0.0.2",
            [⟨"A", "93.184.216.34"⟩, ⟨"A", "127.0.0.1"⟩, ⟨"A", "0.0.0.0"⟩]⟩])]
        (fun s => if s == "2024-01-01T00:00:05+00:00" then some ⟨5, true⟩ else none)
        (fun _ _ => NftOutcome.ret 0) ⟨1, 3, 9⟩).insertLog ∧
    ("93.184.216.34" : String) ≠ "0.0.0.0" ∧
    isPrefixL "127.".data "93.184.216.34".data = false :=
  ⟨by decide,
   (C8_loopback_and_zero_never_inserted ⟨[], 0⟩ [("pbr_x", ⟨some "wan", []⟩)]
      [("example.com", "wan",
        [⟨"2024-01-01T00:00:05Z", "example.com", "10.0.0.2",
          [⟨"A", "93.184.216.34"⟩, ⟨"A", "127.0.0.1"⟩, ⟨"A", "0.0.0.0"⟩]⟩])]
      (fun s => if s == "2024-01-01T00:00:05+00:00" then some ⟨5, true⟩ else none)
      (fun _ _ => NftOutcome.ret 0) ⟨1, 3, 9⟩).1
     ("pbr_x", "93.184.216.34") (by decide)⟩

/-! ### Claim C9: what rediscovery does to the cache -/

theorem discoverLineStep_keeps_keys (nameMap : List (String × String)) (st : DiscSt)
    (raw : List Char) (s : String) (h : (alistLookup st.sets s).isSome) :
    (alistLookup (discoverLineStep nameMap st raw).sets s).isSome := by
  unfold discoverLineStep
  by_cases h1 : (containsSub "set pbr_".data (pyStrip raw)
      && containsSub ['\x7b'] (pyStrip raw)) = true
  · rw [if_pos h1]
    cases hn : searchSetName (pyStrip raw) with
    | none => exact h
    | some nm => exact isSome_alistLookup_alistUpdate st.sets s (String.mk nm) _ h
  · rw [if_neg h1]
    cases hc : st.current with
    | none => exact h
    | some cs =>
      dsimp only
      by_cases h2 : containsSub "comment".data (pyStrip raw) = true
      · rw [if_pos h2]
        cases hcm : searchComment (pyStrip raw) with
        | none => exact h
        | some cm => exact isSome_alistLookup_alistModify st.sets s cs _ h
      · rw [if_neg h2]
        by_cases h3 : containsSub "elements = \x7b".data (pyStrip raw) = true
        · rw [if_pos h3]
          exact isSome_alistLookup_alistModify st.sets s cs _ h
        · rw [if_neg h3]
          exact h

theorem discoverLineStep_untouched (nameMap : List (String × String)) (st : DiscSt)
    (raw : List Char) (s : String) (target : Option NftSetInfo)
    (hname : headerName raw ≠ some s) (hcur : st.current ≠ some s)
    (hlook : alistLookup st.sets s = target) :
    (discoverLineStep nameMap st raw).current ≠ some s ∧
    alistLookup (discoverLineStep nameMap st raw).sets s = target := by
  unfold discoverLineStep
  unfold headerName at hname
  by_cases h1 : (containsSub "set pbr_".data (pyStrip raw)
      && containsSub ['\x7b'] (pyStrip raw)) = true
  · rw [if_pos h1]
    rw [if_pos h1] at hname
    cases hn : searchSetName (pyStrip raw) with
    | none => exact ⟨hcur, hlook⟩
    | some nm =>
      rw [hn] at hname
      have hne : String.mk nm ≠ s := fun hcontra => hname (by simp [hcontra])
      refine ⟨fun hcontra => hne (Option.some.inj hcontra), ?_⟩
      rw [alistLookup_alistUpdate_ne st.sets (String.mk nm) s _ hne]
      exact hlook
  · rw [if_neg h1]
    cases hc : st.current with
    | none => exact ⟨hcur, hlook⟩
    | some cs =>
      have hcs : cs ≠ s := fun hcontra => hcur (by rw [hc, hcontra])
      have hcur2 : (some cs : Option String) ≠ some s :=
        fun hcontra => hcs (Option.some.inj hcontra)
      dsimp only
      by_cases h2 : containsSub "comment".data (pyStrip raw) = true
      · rw [if_pos h2]
        cases hcm : searchComment (pyStrip raw) with
        | none => exact ⟨hcur, hlook⟩
        | some cm =>
          refine ⟨hcur2, ?_⟩
          rw [alistLookup_alistModify_ne st.sets cs s _ hcs]
          exact hlook
      · rw [if_neg h2]
        by_cases h3 : containsSub "elements = \x7b".data (pyStrip raw) = true
        · rw [if_pos h3]
          refine ⟨fun hcontra => Option.noConfusion hcontra, ?_⟩
          rw [alistLookup_alistModify_ne st.sets cs s _ hcs]
          exact hlook
        · rw [if_neg h3]
          exact ⟨hcur, hlook⟩

theorem foldl_discoverLineStep_keeps_keys (nameMap : List (String × String))
    (lines : List (List Char)) (st : DiscSt) (s : String)
    (h : (alistLookup st.sets s).isSome) :
    (alistLookup ((lines.foldl (discoverLineStep nameMap) st).sets) s).isSome := by
  induction lines generalizing st with
  | nil => exact h
  | cons l rest ih =>
    rw [List.foldl_cons]
    exact ih _ (discoverLineStep_keeps_keys nameMap st l s h)

theorem foldl_discoverLineStep_untouched (nameMap : List (String × String))
    (lines : List (List Char)) (st : DiscSt) (s : String) (target : Option NftSetInfo)
    (hnames : ∀ raw ∈ lines, headerName raw ≠ some s)
    (hcur : st.current ≠ some s) (hlook : alistLookup st.sets s = target) :
    alistLookup ((lines.foldl (discoverLineStep nameMap) st).sets) s = target := by
  induction lines generalizing st with
  | nil => exact hlook
  | cons l rest ih =>
    rw [List.foldl_cons]
    obtain ⟨hc2, hl2⟩ := discoverLineStep_untouched nameMap st l s target
      (hnames l (List.mem_cons_self _ _)) hcur hlook
    exact ih _ (fun x hx => hnames x (List.mem_cons_of_mem _ hx)) hc2 hl2

theorem add_ip_to_set_keeps_members (sets : NftSets) (t s ip : String)
    (o : NftOutcome) (info : NftSetInfo) (x : String)
    (hl : alistLookup sets t = some info) (hx : x ∈ info.elements) :
    ∃ info2, alistLookup (add_ip_to_set sets s ip o).2.1 t = some info2 ∧
      x ∈ info2.elements := by
  unfold add_ip_to_set
  by_cases hc : (match alistLookup sets s with
    | some i => i.elements.contains ip
    | none => false) = true
  · rw [if_pos hc]
    exact ⟨info, hl, hx⟩
  · rw [if_neg hc]
    cases o with
    | raise => exact ⟨info, hl, hx⟩
    | ret code =>
      cases code with
      | succ n => exact ⟨info, hl, hx⟩
      | zero =>
        dsimp only
        by_cases hs : (alistLookup sets s).isSome = true
        · rw [if_pos hs]
          by_cases hts : s = t
          · subst hts
            rw [alistLookup_alistModify_self, hl]
            exact ⟨_, rfl, mem_setInsert_of_mem info.elements x ip hx⟩
          · rw [alistLookup_alistModify_ne sets s t _ hts]
            exact ⟨info, hl, hx⟩
        · rw [if_neg hs]
          exact ⟨info, alistLookup_append_left sets _ t info hl, hx⟩

/-- C9 counterexample: the claim says every cached member IP present before a
rediscovery is still present afterwards even if no longer in the live dump.
In fact, when the dump still lists the set, the header branch *rebuilds* its
cache entry from scratch: here set `pbr_a` is cached with member `1.2.3.4`
and interface `wan`, the dump contains only the header line for `pbr_a`, and
after `discover_sets` the cached member (and binding) are gone. -/
theorem C9_counterexample :
    alistLookup ([("pbr_a", ⟨some "wan", ["1.2.3.4"]⟩)] : NftSets) "pbr_a"
      = some ⟨some "wan", ["1.2.3.4"]⟩ ∧
    alistLookup
      (discover_sets [] [("pbr_a", ⟨some "wan", ["1.2.3.4"]⟩)]
        (Except.ok "set pbr_a \x7b"))
      "pbr_a" = some ⟨none, []⟩ := by
  constructor
  · decide
  · decide

/-- C9 amended: the registry cache only loses members through rediscovery
of a set still present in the dump.  Precisely: (a) `discover_sets` never
deletes a cache *entry* — every set name with an entry before still has one
after; (b) a set whose name is produced by no header line of the dump keeps
its entry verbatim, members included (and an errored dump fetch leaves the
whole cache untouched); (c) `add_ip_to_set` never removes a cached member
from any set.  What the counterexample forces: a set that *is* listed in the
dump has its entry rebuilt from the dump, so cached members absent from the
live firewall state are dropped at rediscovery. -/
theorem C9_discover_grow_only (policies : List (String × Policy)) (pre : NftSets) :
    (∀ fetch s, (alistLookup pre s).isSome →
      (alistLookup (discover_sets policies pre fetch) s).isSome) ∧
    (∀ out s, (∀ raw ∈ splitChar '\n' out.data, headerName raw ≠ some s) →
      alistLookup (discover_sets policies pre (Except.ok out)) s = alistLookup pre s) ∧
    (∀ e s, alistLookup (discover_sets policies pre (Except.error e)) s
      = alistLookup pre s) ∧
    (∀ sets t s ip o info x, alistLookup sets t = some info → x ∈ info.elements →
      ∃ info2, alistLookup ((add_ip_to_set sets s ip o).2.1 : NftSets) t = some info2 ∧
        x ∈ info2.elements) := by
  refine ⟨?_, ?_, fun e s => rfl, fun sets t s ip o info x hl hx =>
    add_ip_to_set_keeps_members sets t s ip o info x hl hx⟩
  · intro fetch s h
    cases fetch with
    | error e => exact h
    | ok out =>
      exact foldl_discoverLineStep_keeps_keys (get_name_to_interface_map policies)
        (splitChar '\n' out.data) ⟨pre, none⟩ s h
  · intro out s hnames
    exact foldl_discoverLineStep_untouched (get_name_to_interface_map policies)
      (splitChar '\n' out.data) ⟨pre, none⟩ s (alistLookup pre s) hnames
      (by intro hcontra; cases hcontra) rfl

theorem C9_discover_grow_only_witness :
    ((alistLookup ([("pbr_a", ⟨some "wan", ["1.2.3.4"]⟩)] : NftSets) "pbr_a").isSome ∧
      (∀ raw ∈ splitChar '\n' "set pbr_b \x7b".data, headerName raw ≠ some "pbr_a") ∧
      alistLookup ([("pbr_a", ⟨some "wan", ["1.2.3.4"]⟩)] : NftSets) "pbr_a"
        = some ⟨some "wan", ["1.2.3.4"]⟩ ∧
      "1.2.3.4" ∈ (⟨some "wan", ["1.2.3.4"]⟩ : NftSetInfo).elements) ∧
    (alistLookup
        (discover_sets [] [("pbr_a", ⟨some "wan", ["1.2.3.4"]⟩)]
          (Except.ok "set pbr_b \x7b"))
        "pbr_a").isSome ∧
    alistLookup
        (discover_sets [] [("pbr_a", ⟨some "wan", ["1.2.3.4"]⟩)]
          (Except.ok "set pbr_b \x7b"))
        "pbr_a" = some ⟨some "wan", ["1.2.3.4"]⟩ ∧
    (∃ info2,
      alistLookup
        ((add_ip_to_set [("pbr_a", ⟨some "wan", ["1.2.3.4"]⟩)] "pbr_a" "5.6.7.8"
          (NftOutcome.ret 0)).2.1 : NftSets) "pbr_a" = some info2 ∧
      "1.2.3.4" ∈ info2.elements) :=
  ⟨⟨by decide, by decide, by decide, by decide⟩,
   (C9_discover_grow_only [] [("pbr_a", ⟨some "wan", ["1.2.3.4"]⟩)]).1
     (Except.ok "set pbr_b \x7b") "pbr_a" (by decide),
   (C9_discover_grow_only [] [("pbr_a", ⟨some "wan", ["1.2.3.4"]⟩)]).2.1
     "set pbr_b \x7b" "pbr_a" (by decide),
   (C9_discover_grow_only [] [("pbr_a", ⟨some "wan", ["1.2.3.4"]⟩)]).2.2.2
     [("pbr_a", ⟨some "wan", ["1.2.3.4"]⟩)] "pbr_a" "pbr_a" "5.6.7.8"
     (NftOutcome.ret 0) ⟨some "wan", ["1.2.3.4"]⟩ "1.2.3.4" (by decide) (by decide)⟩

end PBRSync
